import Mathlib

/-!
Verification of the bounded-concurrency key-validation engine
(`scripts/validate-keys.py`) against its specification.

The Python source is shallowly embedded: pure functions become Lean
functions; the network transport is a parameter mapping a (key, model)
pair to an abstract transport outcome; the asynchronous batch run is
modelled by an explicit completion order together with a small-step
transition system for the concurrency gate (semaphore).
-/

namespace ValidateKeys

/-- The fixed capability (model) list `TEST_MODELS` from the source. -/
def TEST_MODELS : List String :=
  ["gpt-4o-mini", "gpt-4.1-mini", "gpt-4.1-nano"]

/-- Embedding of the dataclass `KeyValidationResult`.  The Python `Dict[str, bool]`
`model_results` is built by inserting one entry per model of `TEST_MODELS`, in
order, so it is embedded as an association list. -/
structure KeyValidationResult where
  key : String
  key_preview : String
  is_valid : Bool
  model_results : List (String × Bool)
  error_message : String := ""
deriving Repr, DecidableEq

/-- The outcome of one transport-level request in `test_model`:
an HTTP status code, an elapsed timeout (`asyncio.TimeoutError`),
or any other raised exception. -/
inductive TransportOutcome where
  | status (code : Nat)
  | timeout
  | exc
deriving Repr, DecidableEq

/-- A transport assigns an outcome to every (key, model) request issued by
`test_model`.  This is the only effectful part of the probe. -/
def Transport : Type := String → String → TransportOutcome

/-- Embedding of `KeyValidator.get_key_preview`.  Python `key[:n]` is
`List.take n`, and `key[-n:]` is `List.drop (len - n)` (for `len < n` Python
returns the whole string, matching truncated subtraction). -/
def get_key_preview (key : String) : String :=
  if key.data.length < 20 then
    ⟨key.data.take 4⟩ ++ "***" ++ ⟨key.data.drop (key.data.length - 4)⟩
  else
    ⟨key.data.take 8⟩ ++ "***" ++ ⟨key.data.drop (key.data.length - 8)⟩

/-- Embedding of `KeyValidator.test_model`: the status-code classification of
the transport outcome for one (key, model) request.  Every failure mode of the
Python code (`asyncio.TimeoutError`, any other `Exception`) is caught and
mapped to `false`, so the embedding is a total function: the probe never
raises to its caller. -/
def test_model (transport : Transport) (key model : String) : Bool :=
  match transport key model with
  | .status code =>
      if code = 200 then true
      else if code = 401 then false
      else if code = 404 then false
      else if code = 429 then true
      else false
  | .timeout => false
  | .exc => false

/-- Embedding of `KeyValidator.validate_key`: one probe per model of
`TEST_MODELS` (run concurrently in the source; the result dict is filled in
`TEST_MODELS` order), `is_valid = any(model_results.values())`, and the
`error_message` field left at its dataclass default `""`. -/
def validate_key (transport : Transport) (key : String) : KeyValidationResult :=
  let key_preview := get_key_preview key
  let model_results := TEST_MODELS.map fun model => (model, test_model transport key model)
  let is_valid := model_results.any fun p => p.2
  { key := key
    key_preview := key_preview
    is_valid := is_valid
    model_results := model_results
    error_message := "" }

/-- Embedding of the loop body of `deduplicate_keys`, with the `seen` set
carried explicitly (membership in a Python `set` of strings is exact string
equality). -/
def dedupGo : List String → List String → List String × List String
  | [], _ => ([], [])
  | k :: rest, seen =>
      if k ∈ seen then
        let p := dedupGo rest seen
        (p.1, k :: p.2)
      else
        let p := dedupGo rest (k :: seen)
        (k :: p.1, p.2)

/-- Embedding of `deduplicate_keys`: returns (unique keys, duplicate keys). -/
def deduplicate_keys (keys : List String) : List String × List String :=
  dedupGo keys []

/-- Spec-level description of the unique list: the entries of `keys` that are
first occurrences (not present among the strictly earlier entries), in input
order. -/
def firstOccurrences (keys : List String) : List String :=
  (keys.enum.filter fun p => decide (p.2 ∉ keys.take p.1)).map Prod.snd

/-- Spec-level description of the duplicates list: the entries of `keys` that
already occurred strictly earlier, in input order. -/
def laterOccurrences (keys : List String) : List String :=
  (keys.enum.filter fun p => decide (p.2 ∈ keys.take p.1)).map Prod.snd

/-- Embedding of `validate_keys_batch`.  The source creates one task
`validate_with_semaphore(key)` per input key and appends each task's result to
`results` as it completes (`asyncio.as_completed` yields every task exactly
once, in completion order).  The completion order is therefore some
permutation of `keys`; it is passed explicitly as `completionOrder`, and
theorems about the batch take the permutation fact as a hypothesis.
The `keys` parameter records the scheduled task list. -/
def validate_keys_batch (transport : Transport) (keys completionOrder : List String) :
    List KeyValidationResult :=
  completionOrder.map (validate_key transport)

/-- The (key, model) probe requests issued by one `validate_key` call:
one per entry of `TEST_MODELS`. -/
def validate_key_probes (key : String) : List (String × String) :=
  TEST_MODELS.map fun model => (key, model)

/-- All probe requests issued during a batch run, in the order the
per-key pipelines are admitted. -/
def batch_probes (completionOrder : List String) : List (String × String) :=
  completionOrder.flatMap validate_key_probes

/-- Embedding of the post-deduplication part of `main`: if the deduplicated
key list is empty the run exits with a configuration error (`sys.exit(1)`
after printing `❌ 没有找到有效的密钥`) *before* `validate_keys_batch` is ever
called, so the error branch issues no probe request; otherwise the batch runs
on the unique keys.  The second component of the success value records every
probe request issued. -/
def run_main (transport : Transport) (rawKeys completionOrder : List String) :
    Except String (List KeyValidationResult × List (String × String)) :=
  let ud := deduplicate_keys rawKeys
  if ud.1.isEmpty then
    .error "没有找到有效的密钥"
  else
    .ok (validate_keys_batch transport ud.1 completionOrder, batch_probes completionOrder)

/-- The probe requests actually issued by a run of `main`: none when the run
fails as a configuration error (the exit happens before any batch work). -/
def run_main_probe_log (transport : Transport) (rawKeys completionOrder : List String) :
    List (String × String) :=
  match run_main transport rawKeys completionOrder with
  | .error _ => []
  | .ok p => p.2

/-! ### The concurrency gate as a transition system

`validate_keys_batch` wraps each per-key pipeline in
`async with semaphore` (`validate_with_semaphore`): a slot of the
semaphore of capacity `concurrency` is acquired before `validate_key`
starts and released on every exit path, normal or exceptional, when the
scoped `async with` block is left.  The interleaving of the event loop is
modelled by a small-step relation on gate states: a pending key may start
only while fewer than `C` pipelines hold a slot, and a running pipeline
may finish at any time, releasing its slot and emitting its verdict. -/

/-- A state of the batch run: keys whose pipeline has not started, keys
currently holding a gate slot, and verdicts already emitted.  The number of
active gate holders is `running.length`. -/
structure GateState where
  pending : List String
  running : List String
  finished : List KeyValidationResult
deriving Repr

/-- One scheduling step of the batch run under gate capacity `C`. -/
inductive GateStep (C : Nat) (transport : Transport) : GateState → GateState → Prop
  | start (k : String) (p₁ p₂ : List String) (s : GateState) :
      s.pending = p₁ ++ k :: p₂ →
      s.running.length < C →
      GateStep C transport s ⟨p₁ ++ p₂, k :: s.running, s.finished⟩
  | finish (k : String) (r₁ r₂ : List String) (s : GateState) :
      s.running = r₁ ++ k :: r₂ →
      GateStep C transport s ⟨s.pending, r₁ ++ r₂, validate_key transport k :: s.finished⟩

/-- The initial state of a batch run on `keys`: nothing started, no slots held. -/
def initState (keys : List String) : GateState :=
  ⟨keys, [], []⟩

/-- States reachable from `s₀` by scheduling steps. -/
inductive GateReachable (C : Nat) (transport : Transport) (s₀ : GateState) : GateState → Prop
  | refl : GateReachable C transport s₀ s₀
  | tail {s s' : GateState} :
      GateReachable C transport s₀ s → GateStep C transport s s' →
      GateReachable C transport s₀ s'

/-! ### Claims -/

/-- C1: for every credential, the verdict's overall valid flag equals the
logical OR of its per-capability boolean results: `valid = false` iff every
capability result is `false`, and `valid = true` iff at least one capability
result is `true`. -/
theorem C1_valid_is_or_of_capability_results (transport : Transport) (key : String) :
    ((validate_key transport key).is_valid
        = ((validate_key transport key).model_results.any fun p => p.2)) ∧
    ((validate_key transport key).is_valid = false ↔
        ∀ p ∈ (validate_key transport key).model_results, p.2 = false) ∧
    ((validate_key transport key).is_valid = true ↔
        ∃ p ∈ (validate_key transport key).model_results, p.2 = true) := by
  refine ⟨rfl, ?_, ?_⟩
  · rw [show (validate_key transport key).is_valid
        = ((validate_key transport key).model_results.any fun p => p.2) from rfl]
    simp [List.any_eq_false]
  · rw [show (validate_key transport key).is_valid
        = ((validate_key transport key).model_results.any fun p => p.2) from rfl]
    simp [List.any_eq_true]

/-- C1 witness: with a transport that times out on every request all three
capability results are false and the verdict is invalid; with one that
returns status 200 only for the capability `"gpt-4.1-mini"` the verdict is
valid. -/
theorem C1_valid_is_or_witness :
    (validate_key (fun _ _ => .timeout) "sk-test").is_valid = false ∧
    (validate_key (fun _ m => if m = "gpt-4.1-mini" then .status 200 else .status 401)
        "sk-test").is_valid = true := by
  constructor
  · exact (C1_valid_is_or_of_capability_results (fun _ _ => .timeout) "sk-test").2.1.mpr
      (by decide)
  · exact (C1_valid_is_or_of_capability_results
        (fun _ m => if m = "gpt-4.1-mini" then .status 200 else .status 401)
        "sk-test").2.2.mpr (by refine ⟨("gpt-4.1-mini", true), ?_, rfl⟩; decide)

/-- C2: the probe maps each transport outcome to a boolean exactly as the
status table prescribes — 200 ↦ true, 401 ↦ false, 404 ↦ false, 429 ↦ true,
any other status ↦ false, timeout ↦ false, any other raised failure ↦ false.
(`test_model` is a total function, so the probe never raises to its caller.) -/
theorem C2_probe_status_classification (transport : Transport) (key model : String) :
    (transport key model = .status 200 → test_model transport key model = true) ∧
    (transport key model = .status 401 → test_model transport key model = false) ∧
    (transport key model = .status 404 → test_model transport key model = false) ∧
    (transport key model = .status 429 → test_model transport key model = true) ∧
    (∀ code : Nat, code ≠ 200 → code ≠ 401 → code ≠ 404 → code ≠ 429 →
        transport key model = .status code → test_model transport key model = false) ∧
    (transport key model = .timeout → test_model transport key model = false) ∧
    (transport key model = .exc → test_model transport key model = false) := by
  refine ⟨?_, ?_, ?_, ?_, ?_, ?_, ?_⟩ <;>
    first
      | (intro h; simp [test_model, h])
      | (intro code h200 h401 h404 h429 h
         simp [test_model, h, h200, h401, h404, h429])

/-- C2 witness: the four fixed scenarios of the spec, at concrete transports —
status 429 yields usable, 401 and 404 yield unusable, a timeout yields
unusable; additionally status 500 (an "other" status) yields unusable. -/
theorem C2_probe_status_classification_witness :
    test_model (fun _ _ => .status 429) "sk-w" "gpt-4o-mini" = true ∧
    test_model (fun _ _ => .status 401) "sk-w" "gpt-4o-mini" = false ∧
    test_model (fun _ _ => .status 404) "sk-w" "gpt-4o-mini" = false ∧
    test_model (fun _ _ => .timeout) "sk-w" "gpt-4o-mini" = false ∧
    test_model (fun _ _ => .status 500) "sk-w" "gpt-4o-mini" = false :=
  ⟨(C2_probe_status_classification (fun _ _ => .status 429) "sk-w" "gpt-4o-mini").2.2.2.1 rfl,
   (C2_probe_status_classification (fun _ _ => .status 401) "sk-w" "gpt-4o-mini").2.1 rfl,
   (C2_probe_status_classification (fun _ _ => .status 404) "sk-w" "gpt-4o-mini").2.2.1 rfl,
   (C2_probe_status_classification (fun _ _ => .timeout) "sk-w" "gpt-4o-mini").2.2.2.2.2.1 rfl,
   (C2_probe_status_classification (fun _ _ => .status 500) "sk-w" "gpt-4o-mini").2.2.2.2.1
      500 (by decide) (by decide) (by decide) (by decide) rfl⟩

/-- C10: `validate_key` preserves the credential unchanged in the verdict's
`key` field, its capability-result mapping has exactly the configured
capability names `TEST_MODELS` as its domain (one entry per configured model,
no extras, no omissions, no repeated keys), and the `error_message` field is
left empty. -/
theorem C10_verdict_key_domain_error (transport : Transport) (key : String) :
    (validate_key transport key).key = key ∧
    (validate_key transport key).model_results.map Prod.fst = TEST_MODELS ∧
    ((validate_key transport key).model_results.map Prod.fst).Nodup ∧
    (validate_key transport key).error_message = "" := by
  have hdom : (validate_key transport key).model_results.map Prod.fst = TEST_MODELS := by
    show (TEST_MODELS.map fun model => (model, test_model transport key model)).map Prod.fst
        = TEST_MODELS
    rfl
  refine ⟨rfl, hdom, ?_, rfl⟩
  rw [hdom]
  decide

/-! ### Helper lemmas on `dedupGo` -/

theorem enumFrom_succ_eq_map (l : List String) (n : Nat) :
    List.enumFrom (n + 1) l = (List.enumFrom n l).map (fun p => (p.1 + 1, p.2)) := by
  induction l generalizing n with
  | nil => simp
  | cons a t ih => simp [List.enumFrom_cons, ih]

theorem enum_cons_shift (k : String) (rest : List String) :
    (k :: rest).enum = (0, k) :: (rest.enum.map fun p => (p.1 + 1, p.2)) := by
  rw [List.enum_cons, show (1 : Nat) = 0 + 1 from rfl, enumFrom_succ_eq_map]
  rfl

theorem dedupGo_fst (keys : List String) : ∀ seen : List String,
    (dedupGo keys seen).1
      = (keys.enum.filter fun p => decide (p.2 ∉ seen ∧ p.2 ∉ keys.take p.1)).map Prod.snd := by
  induction keys with
  | nil => intro seen; simp [dedupGo]
  | cons k rest ih =>
    intro seen
    rw [enum_cons_shift, List.filter_cons, List.filter_map]
    by_cases hk : k ∈ seen
    · have hcongr : List.filter
            ((fun p : Nat × String => decide (p.2 ∉ seen ∧ p.2 ∉ (k :: rest).take p.1)) ∘
              fun p => (p.1 + 1, p.2)) rest.enum
          = List.filter (fun p => decide (p.2 ∉ seen ∧ p.2 ∉ rest.take p.1)) rest.enum := by
        refine List.filter_congr ?_
        intro p _
        show decide (p.2 ∉ seen ∧ p.2 ∉ (k :: rest).take (p.1 + 1)) = _
        rw [decide_eq_decide]
        simp only [List.take_succ_cons, List.mem_cons, not_or]
        exact ⟨fun h => ⟨h.1, h.2.2⟩, fun h => ⟨h.1, fun hek => h.1 (hek ▸ hk), h.2⟩⟩
      rw [if_neg (by simp [hk]), List.map_map, hcongr, dedupGo, if_pos hk]
      show (dedupGo rest seen).1 = _
      rw [ih seen]
      rfl
    · have hcongr : List.filter
            ((fun p : Nat × String => decide (p.2 ∉ seen ∧ p.2 ∉ (k :: rest).take p.1)) ∘
              fun p => (p.1 + 1, p.2)) rest.enum
          = List.filter (fun p => decide (p.2 ∉ (k :: seen) ∧ p.2 ∉ rest.take p.1)) rest.enum := by
        refine List.filter_congr ?_
        intro p _
        show decide (p.2 ∉ seen ∧ p.2 ∉ (k :: rest).take (p.1 + 1)) = _
        rw [decide_eq_decide]
        simp only [List.take_succ_cons, List.mem_cons, not_or]
        constructor
        · rintro ⟨hs, hne, ht⟩
          exact ⟨⟨hne, hs⟩, ht⟩
        · rintro ⟨⟨hne, hs⟩, ht⟩
          exact ⟨hs, hne, ht⟩
      rw [if_pos (by simp [hk]), List.map_cons, List.map_map, hcongr, dedupGo, if_neg hk]
      show k :: (dedupGo rest (k :: seen)).1 = _
      rw [ih (k :: seen)]
      rfl

theorem dedupGo_snd (keys : List String) : ∀ seen : List String,
    (dedupGo keys seen).2
      = (keys.enum.filter fun p => decide (p.2 ∈ seen ∨ p.2 ∈ keys.take p.1)).map Prod.snd := by
  induction keys with
  | nil => intro seen; simp [dedupGo]
  | cons k rest ih =>
    intro seen
    rw [enum_cons_shift, List.filter_cons, List.filter_map]
    by_cases hk : k ∈ seen
    · have hcongr : List.filter
            ((fun p : Nat × String => decide (p.2 ∈ seen ∨ p.2 ∈ (k :: rest).take p.1)) ∘
              fun p => (p.1 + 1, p.2)) rest.enum
          = List.filter (fun p => decide (p.2 ∈ seen ∨ p.2 ∈ rest.take p.1)) rest.enum := by
        refine List.filter_congr ?_
        intro p _
        show decide (p.2 ∈ seen ∨ p.2 ∈ (k :: rest).take (p.1 + 1)) = _
        rw [decide_eq_decide]
        simp only [List.take_succ_cons, List.mem_cons]
        constructor
        · rintro (hs | rfl | ht)
          · exact Or.inl hs
          · exact Or.inl hk
          · exact Or.inr ht
        · rintro (hs | ht)
          · exact Or.inl hs
          · exact Or.inr (Or.inr ht)
      rw [if_pos (by simp [hk]), List.map_cons, List.map_map, hcongr, dedupGo, if_pos hk]
      show k :: (dedupGo rest seen).2 = _
      rw [ih seen]
      rfl
    · have hcongr : List.filter
            ((fun p : Nat × String => decide (p.2 ∈ seen ∨ p.2 ∈ (k :: rest).take p.1)) ∘
              fun p => (p.1 + 1, p.2)) rest.enum
          = List.filter (fun p => decide (p.2 ∈ (k :: seen) ∨ p.2 ∈ rest.take p.1)) rest.enum := by
        refine List.filter_congr ?_
        intro p _
        show decide (p.2 ∈ seen ∨ p.2 ∈ (k :: rest).take (p.1 + 1)) = _
        rw [decide_eq_decide]
        simp only [List.take_succ_cons, List.mem_cons]
        constructor
        · rintro (hs | rfl | ht)
          · exact Or.inl (Or.inr hs)
          · exact Or.inl (Or.inl rfl)
          · exact Or.inr ht
        · rintro ((rfl | hs) | ht)
          · exact Or.inr (Or.inl rfl)
          · exact Or.inl hs
          · exact Or.inr (Or.inr ht)
      rw [if_neg (by simp [hk]), List.map_map, hcongr, dedupGo, if_neg hk]
      show (dedupGo rest (k :: seen)).2 = _
      rw [ih (k :: seen)]
      rfl

theorem dedupGo_length (keys : List String) : ∀ seen : List String,
    (dedupGo keys seen).1.length + (dedupGo keys seen).2.length = keys.length := by
  induction keys with
  | nil => intro seen; simp [dedupGo]
  | cons k rest ih =>
    intro seen
    by_cases hk : k ∈ seen
    · simp only [dedupGo, if_pos hk, List.length_cons]
      have := ih seen
      omega
    · simp only [dedupGo, if_neg hk, List.length_cons]
      have := ih (k :: seen)
      omega

theorem dedupGo_nodup (keys : List String) : ∀ seen : List String,
    (dedupGo keys seen).1.Nodup ∧ ∀ x ∈ (dedupGo keys seen).1, x ∉ seen := by
  induction keys with
  | nil => intro seen; simp [dedupGo]
  | cons k rest ih =>
    intro seen
    by_cases hk : k ∈ seen
    · simp only [dedupGo, if_pos hk]
      exact ih seen
    · simp only [dedupGo, if_neg hk]
      obtain ⟨hnd, hnot⟩ := ih (k :: seen)
      refine ⟨List.nodup_cons.mpr ⟨fun hmem => ?_, hnd⟩, ?_⟩
      · exact hnot k hmem (List.mem_cons_self k seen)
      · intro x hx
        rcases List.mem_cons.mp hx with rfl | hx
        · exact hk
        · exact fun hs => hnot x hx (List.mem_cons_of_mem k hs)

theorem dedupGo_of_nodup (keys : List String) : ∀ seen : List String,
    keys.Nodup → (∀ x ∈ keys, x ∉ seen) → dedupGo keys seen = (keys, []) := by
  induction keys with
  | nil => intro seen _ _; rfl
  | cons k rest ih =>
    intro seen hnd hdisj
    have hk : k ∉ seen := hdisj k (List.mem_cons_self k rest)
    simp only [dedupGo, if_neg hk]
    rw [ih (k :: seen) (List.nodup_cons.mp hnd).2 ?_]
    intro x hx
    simp only [List.mem_cons, not_or]
    exact ⟨fun hxk => (List.nodup_cons.mp hnd).1 (hxk ▸ hx), hdisj x (List.mem_cons_of_mem k hx)⟩

theorem deduplicate_keys_spec (keys : List String) :
    deduplicate_keys keys = (firstOccurrences keys, laterOccurrences keys) := by
  refine Prod.ext_iff.mpr ⟨?_, ?_⟩
  · rw [show (deduplicate_keys keys).1 = (dedupGo keys []).1 from rfl, dedupGo_fst keys []]
    unfold firstOccurrences
    congr 1
    refine List.filter_congr ?_
    intro p _
    rw [decide_eq_decide]
    simp
  · rw [show (deduplicate_keys keys).2 = (dedupGo keys []).2 from rfl, dedupGo_snd keys []]
    unfold laterOccurrences
    congr 1
    refine List.filter_congr ?_
    intro p _
    rw [decide_eq_decide]
    simp

/-- C5: `deduplicate_keys` splits the input into the first occurrence of each
distinct value, in first-occurrence input order (`firstOccurrences`), and
every occurrence after the first, in original input order
(`laterOccurrences`); the unique list has no repeated values; the two output
lengths sum to the input length; and on `["a","b","a","c"]` it returns
`(["a","b","c"], ["a"])`. -/
theorem C5_deduplicate_first_later_partition (keys : List String) :
    deduplicate_keys keys = (firstOccurrences keys, laterOccurrences keys) ∧
    (deduplicate_keys keys).1.Nodup ∧
    (deduplicate_keys keys).1.length + (deduplicate_keys keys).2.length = keys.length ∧
    deduplicate_keys ["a", "b", "a", "c"] = (["a", "b", "c"], ["a"]) :=
  ⟨deduplicate_keys_spec keys, (dedupGo_nodup keys []).1, dedupGo_length keys [], by decide⟩

/-- C9: deduplication is idempotent — the unique list returned by
`deduplicate_keys` is a fixed point that produces no duplicates. -/
theorem C9_deduplicate_idempotent (keys u d : List String)
    (h : deduplicate_keys keys = (u, d)) :
    deduplicate_keys u = (u, []) := by
  have hu : (deduplicate_keys keys).1 = u := by rw [h]
  have hnd : u.Nodup := hu ▸ (dedupGo_nodup keys []).1
  exact dedupGo_of_nodup u [] hnd (fun x _ hx => (List.not_mem_nil x) hx)

/-- C9 witness: deduplicating `["a","b","a"]` gives unique list `["a","b"]`,
and deduplicating that unique list returns it unchanged with no duplicates. -/
theorem C9_deduplicate_idempotent_witness :
    deduplicate_keys ["a", "b"] = (["a", "b"], []) :=
  C9_deduplicate_idempotent ["a", "b", "a"] ["a", "b"] ["a"] (by decide)

/-- C3: for every completion order of the batch (any permutation of the input
keys — `asyncio.as_completed` yields every scheduled task exactly once), the
emitted verdicts carry exactly the input credentials, one verdict per
credential: the credentials of the emitted verdicts are a permutation of the
input list, and the number of verdicts equals the number of inputs. -/
theorem C3_batch_emits_each_credential_once (transport : Transport)
    (keys completionOrder : List String) (h : completionOrder.Perm keys) :
    ((validate_keys_batch transport keys completionOrder).map
        KeyValidationResult.key).Perm keys ∧
    (validate_keys_batch transport keys completionOrder).length = keys.length := by
  have hmap : (validate_keys_batch transport keys completionOrder).map
      KeyValidationResult.key = completionOrder := by
    show (completionOrder.map (validate_key transport)).map KeyValidationResult.key
        = completionOrder
    rw [List.map_map]
    exact List.map_id'' (fun k => rfl) completionOrder
  refine ⟨by rw [hmap]; exact h, ?_⟩
  show (completionOrder.map (validate_key transport)).length = keys.length
  rw [List.length_map]
  exact h.length_eq

/-- C3 witness: with two keys completing in reversed order, the emitted
verdicts cover each input credential exactly once. -/
theorem C3_batch_emits_each_credential_once_witness :
    ((validate_keys_batch (fun _ _ => .timeout) ["a", "b"] ["b", "a"]).map
        KeyValidationResult.key).Perm ["a", "b"] ∧
    (validate_keys_batch (fun _ _ => .timeout) ["a", "b"] ["b", "a"]).length = 2 :=
  C3_batch_emits_each_credential_once (fun _ _ => .timeout) ["a", "b"] ["b", "a"] (by decide)

/-- Invariant of the gate transition system: no reachable state has more than
`C` active holders, and the pipelines are conserved — pending, running and
finished always partition the input keys by count. -/
theorem gate_invariant (C : Nat) (transport : Transport) (keys : List String) (s : GateState)
    (h : GateReachable C transport (initState keys) s) :
    s.running.length ≤ C ∧
    s.pending.length + s.running.length + s.finished.length = keys.length := by
  induction h with
  | refl => simp [initState]
  | tail hr hstep ih =>
    obtain ⟨ih1, ih2⟩ := ih
    cases hstep with
    | start k p₁ p₂ s hp hlt =>
      refine ⟨by simpa using hlt, ?_⟩
      rw [hp] at ih2
      simp only [List.length_append, List.length_cons] at *
      omega
    | finish k r₁ r₂ s hrun =>
      rw [hrun] at ih1 ih2
      simp only [List.length_append, List.length_cons] at *
      omega

/-- C4: in every state reachable during a batch run under gate capacity `C`,
at most `C` credential-probe pipelines are concurrently active, and when the
run completes (every scheduled pipeline has finished) the active-holder count
is back to 0.  The `finish` step of the transition system releases the slot
unconditionally — matching the scoped `async with semaphore` of the source,
which releases on every exit path of the protected probe operation. -/
theorem C4_gate_capacity_bound (C : Nat) (transport : Transport) (keys : List String)
    (s : GateState) (h : GateReachable C transport (initState keys) s) :
    s.running.length ≤ C ∧
    (s.finished.length = keys.length → s.running.length = 0) := by
  obtain ⟨h1, h2⟩ := gate_invariant C transport keys s h
  exact ⟨h1, fun hf => by omega⟩

/-- C4 witness: a concrete two-step run of one key under capacity 1 — start,
then finish — reaches a completed state with 0 active holders. -/
theorem C4_gate_capacity_bound_witness :
    (GateState.mk [] [] [validate_key (fun _ _ => .timeout) "a"]).running.length ≤ 1 ∧
    ((GateState.mk [] [] [validate_key (fun _ _ => .timeout) "a"]).finished.length = 1 →
      (GateState.mk [] [] [validate_key (fun _ _ => .timeout) "a"]).running.length = 0) := by
  have h1 : GateReachable 1 (fun _ _ => .timeout) (initState ["a"]) ⟨[], ["a"], []⟩ :=
    GateReachable.tail GateReachable.refl
      (show GateStep 1 (fun _ _ => .timeout) (initState ["a"]) ⟨[], ["a"], []⟩ from
        GateStep.start "a" [] [] (initState ["a"]) rfl (by decide))
  have h2 : GateReachable 1 (fun _ _ => .timeout) (initState ["a"])
      ⟨[], [], [validate_key (fun _ _ => .timeout) "a"]⟩ :=
    GateReachable.tail h1
      (show GateStep 1 (fun _ _ => .timeout) ⟨[], ["a"], []⟩
          ⟨[], [], [validate_key (fun _ _ => .timeout) "a"]⟩ from
        GateStep.finish "a" [] [] ⟨[], ["a"], []⟩ rfl)
  exact C4_gate_capacity_bound 1 (fun _ _ => .timeout) ["a"] _ h2

/-- The length of the masked preview depends only on whether the credential is
below the length-20 threshold. -/
theorem get_key_preview_length (key : String) :
    (get_key_preview key).data.length
      = if key.data.length < 20 then
          min 4 key.data.length + 3 + min 4 key.data.length
        else
          8 + 3 + 8 := by
  unfold get_key_preview
  by_cases h : key.data.length < 20
  · rw [if_pos h, if_pos h, String.data_append, String.data_append]
    simp only [List.length_append, List.length_take, List.length_drop]
    have : key.data.length - (key.data.length - 4) = min 4 key.data.length := by omega
    rw [this]
    rfl
  · rw [if_neg h, if_neg h, String.data_append, String.data_append]
    simp only [List.length_append, List.length_take, List.length_drop]
    have h20 : 20 ≤ key.data.length := Nat.le_of_not_lt h
    have h8 : min 8 key.data.length = 8 := by omega
    have hd : key.data.length - (key.data.length - 8) = 8 := by omega
    rw [h8, hd]
    rfl

/-- C6 counterexample: for the 4-character credential `"abcd"` the masked
preview is `"abcd***abcd"`, which contains the complete credential as a
contiguous substring — the claim "the preview never includes the full
credential" is false as stated for short credentials, whose kept prefix and
suffix overlap and cover the whole value. -/
theorem C6_counterexample_short_key_exposed :
    "abcd".data <:+: (get_key_preview "abcd").data := by decide

/-- C6 (amended): for every credential of length at least 12 the masked
preview never includes the full credential — the complete credential value
does not appear as a contiguous substring of the preview, because the preview
(11 characters below the threshold, 19 at or above it) is strictly shorter
than the credential. -/
theorem C6_preview_never_contains_key (key : String) (h : 12 ≤ key.data.length) :
    ¬ key.data <:+: (get_key_preview key).data := by
  intro hinf
  have hlen := hinf.length_le
  have hp := get_key_preview_length key
  by_cases h20 : key.data.length < 20
  · rw [if_pos h20] at hp
    omega
  · rw [if_neg h20] at hp
    have : 20 ≤ key.data.length := Nat.le_of_not_lt h20
    omega

/-- C6 witness: the 12-character credential `"abcdefghijkl"` does not appear
in its own masked preview. -/
theorem C6_preview_never_contains_key_witness :
    ¬ "abcdefghijkl".data <:+: (get_key_preview "abcdefghijkl").data :=
  C6_preview_never_contains_key "abcdefghijkl" (by decide)

/-- C7: the masked preview is a deterministic function of the credential with
a fixed threshold rule — below length 20 it is the first 4 characters, the
marker `"***"`, then the last 4; otherwise the first 8, the marker, then the
last 8; and for a 51-character credential the middle 35 characters never
appear (as a contiguous block) in the preview. -/
theorem C7_preview_threshold_rule (key : String) :
    (key.data.length < 20 →
        get_key_preview key
          = ⟨key.data.take 4⟩ ++ "***" ++ ⟨key.data.drop (key.data.length - 4)⟩) ∧
    (¬ key.data.length < 20 →
        get_key_preview key
          = ⟨key.data.take 8⟩ ++ "***" ++ ⟨key.data.drop (key.data.length - 8)⟩) ∧
    (key.data.length = 51 →
        ¬ (key.data.drop 8).take 35 <:+: (get_key_preview key).data) := by
  refine ⟨fun h => by rw [get_key_preview, if_pos h],
          fun h => by rw [get_key_preview, if_neg h], fun h51 hinf => ?_⟩
  have hlen := hinf.length_le
  have hp := get_key_preview_length key
  rw [if_neg (by omega)] at hp
  rw [List.length_take, List.length_drop, h51] at hlen
  omega

/-- C7 witness: a concrete 51-character credential — its preview follows the
long-form rule and its middle 35 characters do not appear in the preview. -/
theorem C7_preview_threshold_rule_witness :
    get_key_preview "sk-proj-AAAABBBBCCCCDDDDEEEEFFFFGGGGHHHHIIIIJJJ-end"
      = "sk-proj-***IJJJ-end" ∧
    ¬ ("sk-proj-AAAABBBBCCCCDDDDEEEEFFFFGGGGHHHHIIIIJJJ-end".data.drop 8).take 35
        <:+: (get_key_preview "sk-proj-AAAABBBBCCCCDDDDEEEEFFFFGGGGHHHHIIIIJJJ-end").data := by
  constructor
  · rw [(C7_preview_threshold_rule
        "sk-proj-AAAABBBBCCCCDDDDEEEEFFFFGGGGHHHHIIIIJJJ-end").2.1 (by decide)]
    decide
  · exact (C7_preview_threshold_rule
      "sk-proj-AAAABBBBCCCCDDDDEEEEFFFFGGGGHHHHIIIIJJJ-end").2.2 (by decide)

/-- C8: if the deduplicated credential list is empty, the run fails as a
configuration error (`sys.exit(1)` in `main`) before `validate_keys_batch` is
ever invoked, and no probe network call is issued. -/
theorem C8_empty_input_is_config_error (transport : Transport)
    (rawKeys completionOrder : List String)
    (h : (deduplicate_keys rawKeys).1 = []) :
    run_main transport rawKeys completionOrder = .error "没有找到有效的密钥" ∧
    run_main_probe_log transport rawKeys completionOrder = [] := by
  have hempty : (deduplicate_keys rawKeys).1.isEmpty = true := by
    rw [h]
    rfl
  have herr : run_main transport rawKeys completionOrder = .error "没有找到有效的密钥" := by
    unfold run_main
    rw [if_pos hempty]
  exact ⟨herr, by unfold run_main_probe_log; rw [herr]⟩

/-- C8 witness: the empty raw list deduplicates to an empty unique list, and
the run errors out with no probe issued. -/
theorem C8_empty_input_is_config_error_witness :
    run_main (fun _ _ => .timeout) [] [] = .error "没有找到有效的密钥" ∧
    run_main_probe_log (fun _ _ => .timeout) [] [] = [] :=
  C8_empty_input_is_config_error (fun _ _ => .timeout) [] [] (by decide)

end ValidateKeys
